import Mathlib

/-!
Verification of the log-to-source mapping engine (`src/src/lib.rs`).

This file gives a shallow embedding of the data model and the operations of
`lib.rs` — `LogMatcher`, `add_root`, `match_path`, `match_log_statement`,
`extract_variables`, `filter_log`, `extract_logging` and
`extract_log_statements` — and proves properties about them.

Modelling conventions:
* Rust `Path` values are lists of components (`List String`); Rust
  `Path::starts_with` is componentwise `List.isPrefixOf`.
* The external regex library is parametrised: a `RegexSet` is modelled by its
  ordered list of alternative pattern strings together with a match function
  `rm : String → String → Bool` supplied at each use site;
  `RegexSet::matches(body).iter().next()` is the lowest index whose pattern
  matches, i.e. `List.findIdx?`.
* Code of the repository that lives in modules not present under `src/`
  (`source_ref.rs`, `source_query.rs`, `source_hier.rs`, `code_source.rs`) is
  parametrised away behind functions (`cap`, `mkRef`, `load`): the theorems
  hold for every behaviour of those modules.
* A Rust panic (`unwrap` on `None`, `todo!()`, `expect`) is modelled by an
  `Option`-valued result being `none`.
-/

/-- Embedding of `FormatArgument` from `source_ref.rs` as used by
`extract_variables` in `lib.rs`. -/
inductive FormatArgument where
  | Named (name : String)
  | Positional (pos : Nat)
  | Placeholder
deriving DecidableEq

/-- Embedding of the `SourceRef` record (fields as used in `lib.rs`). -/
structure SourceRef where
  source_path : String
  line_no : Nat
  end_line_no : Nat
  column : Nat
  name : String
  text : String
  vars : List String
  args : List FormatArgument
  pattern : String
deriving DecidableEq

/-- Embedding of `VariablePair` (lib.rs lines 347-351). -/
structure VariablePair where
  expr : String
  value : String
deriving DecidableEq

/-- Embedding of `LogDetails` (lib.rs lines 368-373). -/
structure LogDetails where
  file : Option String
  lineno : Option Nat
  body : Option String
deriving DecidableEq

/-- Embedding of `LogRef` (lib.rs lines 362-366). -/
structure LogRef where
  line : String
  details : Option LogDetails
deriving DecidableEq

/-- Embedding of `LogRef::new` (lib.rs lines 376-381). -/
def LogRef.new (line : String) : LogRef :=
  { line := line, details := none }

/-- Embedding of `LogRef::body` (lib.rs lines 408-414). -/
def LogRef.body (lr : LogRef) : String :=
  match lr.details with
  | some { body := some s, .. } => s
  | _ => lr.line

/-- Embedding of `LogMapping` (lib.rs lines 353-360).  The field `varList`
renders the Rust field `variables` (that name is reserved in Lean); it is
`Option`-valued: `none` records that `extract_variables` panicked while the
mapping was being built. -/
structure LogMapping where
  log_ref : LogRef
  src_ref : Option SourceRef
  varList : Option (List VariablePair)
deriving DecidableEq

/-- The line `extract_variables` matches against (lib.rs lines 443-446):
`details.body` if present, otherwise the raw line. -/
def extractLine (lr : LogRef) : String :=
  match lr.details with
  | some details => details.body.getD lr.line
  | none => lr.line

/-- One iteration of the capture/descriptor loop of `extract_variables`
(lib.rs lines 451-464); `none` models a panic (`cap.unwrap()` on a
non-participating group, or the unguarded `src_ref.vars[index]` in the
`Placeholder` arm). -/
def pairOf (sr : SourceRef) (index : Nat) (cap : Option String)
    (arg : FormatArgument) : Option VariablePair :=
  let expr? : Option String :=
    match arg with
    | .Named name => some name
    | .Positional pos => some ((sr.vars.get? pos).getD "<unknown>")
    | .Placeholder => sr.vars.get? index
  match expr?, cap with
  | some e, some v => some { expr := e, value := v }
  | _, _ => none

/-- The capture/descriptor loop of `extract_variables` (lib.rs lines 448-465):
zip of the capture groups (whole-match group already dropped) with the `args`
descriptors, with a running `enumerate` index. -/
def collectPairs (sr : SourceRef) :
    Nat → List (Option String × FormatArgument) → Option (List VariablePair)
  | _, [] => some []
  | i, (c, a) :: rest =>
    match pairOf sr i c a, collectPairs sr (i + 1) rest with
    | some p, some l => some (p :: l)
    | _, _ => none

/-- Embedding of `extract_variables` (lib.rs lines 441-469), parametrised by
the capture function `cap` of `SourceRef::captures` (code in `source_ref.rs`):
`cap sr line` is `none` when `sr.pattern` does not match `line`, and otherwise
the list of capture groups, the whole-match group first. -/
def extract_variables (cap : SourceRef → String → Option (List (Option String)))
    (lr : LogRef) (sr : SourceRef) : Option (List VariablePair) :=
  match cap sr (extractLine lr) with
  | some captures => collectPairs sr 0 ((captures.drop 1).zip sr.args)
  | none => some []

/-- Split a character list at newline characters (all segments kept). -/
def splitLines : List Char → List (List Char)
  | [] => [[]]
  | c :: rest =>
    if c = '\n' then [] :: splitLines rest
    else
      match splitLines rest with
      | l :: ls => (c :: l) :: ls
      | [] => [[]]

/-- Strip one trailing carriage return from a character list. -/
def stripCR (l : List Char) : List Char :=
  match l.getLast? with
  | some c => if c = '\r' then l.dropLast else l
  | none => l

/-- Rust's `str::lines`: split on a newline, dropping the final empty segment
produced by a trailing newline, and stripping a trailing carriage return from
each line. -/
def rustLines (s : String) : List String :=
  match s.data with
  | [] => []
  | _ :: _ =>
    let parts := splitLines s.data
    let parts := if s.data.getLast? = some '\n' then parts.dropLast else parts
    parts.map (fun l => String.mk (stripCR l))

/-- Embedding of `filter_log` (lib.rs lines 471-490).  The range bound is the
`filter.contains` test; the optional log format is modelled by the function
`LogRef::with_format(·, format)` it would be applied through (its regex lives
in `log_format.rs`). -/
def filter_log (contains : Nat → Bool) (buffer : String)
    (log_format : Option (String → LogRef)) : List LogRef :=
  (rustLines buffer).enum.filterMap (fun p =>
    if contains p.1 then
      match log_format with
      | some format => some (format p.2)
      | none => some (LogRef.new p.2)
    else none)

/-- Embedding of `StatementsInFile` (lib.rs lines 62-73).  The `matcher` field
holds the ordered alternatives of the `RegexSet` built from the statements'
patterns; the regex engine itself is supplied as a parameter `rm` where it is
used. -/
structure StatementsInFile where
  path : String
  id : Nat
  log_statements : List SourceRef
  matcher : List String
deriving DecidableEq

/-- Embedding of `SourceTree` (lib.rs lines 75-79).  The filesystem hierarchy
(`source_hier.rs`) is not needed by the claims; only the
`files_with_statements` map is kept, as an association list keyed by file id
whose order stands for the map's iteration order. -/
structure SourceTree where
  files_with_statements : List (Nat × StatementsInFile)
deriving DecidableEq

/-- Embedding of the `LogError` variants of lib.rs lines 35-60 that the
claims mention. -/
inductive LogError where
  | PathExists (path : List String) (root : List String)
  | CannotReadSourceFile (path : List String)
  | NoLogStatements
deriving DecidableEq

/-- Embedding of `LogMatcher` (lib.rs lines 81-85): the `roots` map as an
association list whose order stands for `HashMap` iteration order. -/
structure LogMatcher where
  roots : List (List String × SourceTree)
deriving DecidableEq

/-- Embedding of `LogMatcher::match_path` (lib.rs lines 117-122):
`filter(..).next()` over the roots, keeping those of which `path` is an
extension (`Path::starts_with` is componentwise prefix). -/
def LogMatcher.match_path (m : LogMatcher) (path : List String) :
    Option (List String × SourceTree) :=
  m.roots.find? (fun r => r.1.isPrefixOf path)

/-- Embedding of `LogMatcher::add_root` (lib.rs lines 103-114): when
`match_path` finds a covering root nothing happens; otherwise an empty
`SourceTree` is inserted at `path`; the result is always `Ok(())`. -/
def LogMatcher.add_root (m : LogMatcher) (path : List String) :
    LogMatcher × Except LogError Unit :=
  match m.match_path path with
  | some _ => (m, Except.ok ())
  | none =>
    ({ roots := m.roots ++ [(path, { files_with_statements := [] })] },
      Except.ok ())

/-- Occurrence of `pat` as a contiguous sublist. -/
def containsSub (pat : List Char) : List Char → Bool
  | [] => pat.isEmpty
  | c :: rest => pat.isPrefixOf (c :: rest) || containsSub pat rest

/-- Rust `str::contains` on strings: `pat` occurs as a contiguous substring
of `s`. -/
def strContains (s pat : String) : Bool :=
  containsSub pat.data s.data

/-- The per-file probe shared by both branches of `match_log_statement`
(lib.rs lines 213-217 and 224-228): `matcher.matches(body).iter().next()` is
the lowest alternative index whose pattern matches, and the statement at that
index is looked up. -/
def fileFirstMatch (rm : String → String → Bool) (sif : StatementsInFile)
    (body : String) : Option SourceRef :=
  match sif.matcher.findIdx? (fun p => rm p body) with
  | none => none
  | some index => sif.log_statements.get? index

/-- The candidate list one root contributes in `match_log_statement`
(lib.rs lines 202-231): with both a file hint and a body in the details, only
files whose path contains the hint are probed; otherwise every file is probed
with `log_ref.body()`. -/
def rootMatches (rm : String → String → Bool) (coll : SourceTree)
    (lr : LogRef) : List SourceRef :=
  match lr.details with
  | some { file := some filename, body := some body, .. } =>
    ((coll.files_with_statements.map Prod.snd).filter
        (fun s => strContains s.path filename)).filterMap
      (fun s => fileFirstMatch rm s body)
  | _ =>
    (coll.files_with_statements.map Prod.snd).filterMap
      (fun s => fileFirstMatch rm s lr.body)

/-- The `LogMapping` built at lib.rs lines 233-238 once a source reference is
selected. -/
def mkMapping (cap : SourceRef → String → Option (List (Option String)))
    (lr : LogRef) (sr : SourceRef) : LogMapping :=
  { log_ref := lr, src_ref := some sr, varList := extract_variables cap lr sr }

/-- The root loop of `match_log_statement` (lib.rs lines 201-241): the first
root whose candidate list is non-empty yields the mapping of its first
candidate; otherwise the loop falls through to `None`. -/
def matchInRoots (rm : String → String → Bool)
    (cap : SourceRef → String → Option (List (Option String))) (lr : LogRef) :
    List (List String × SourceTree) → Option LogMapping
  | [] => none
  | (_, coll) :: rest =>
    match (rootMatches rm coll lr).head? with
    | some sr => some (mkMapping cap lr sr)
    | none => matchInRoots rm cap lr rest

/-- Embedding of `LogMatcher::match_log_statement` (lib.rs lines 199-242). -/
def LogMatcher.match_log_statement (rm : String → String → Bool)
    (cap : SourceRef → String → Option (List (Option String)))
    (m : LogMatcher) (lr : LogRef) : Option LogMapping :=
  matchInRoots rm cap lr m.roots

/-- Search procedure written from the specification's words for the hinted
branch of `match_log_statement`: iterate roots; within each root restrict to
the files whose stored path contains the file hint as a substring; for each
such file take the lowest-index matching alternative of its matcher and
resolve it to the source reference at that index; the answer is the first hit,
and absent when no root yields any match. -/
def specHintMatch (rm : String → String → Bool)
    (roots : List (List String × SourceTree)) (filename body : String) :
    Option SourceRef :=
  (roots.filterMap (fun r =>
    (((r.2.files_with_statements.map Prod.snd).filter
          (fun s => strContains s.path filename)).filterMap
        (fun s =>
          (s.matcher.findIdx? (fun p => rm p body)).bind
            (fun i => s.log_statements.get? i))).head?)).head?

/-- Embedding of `SourceLanguage` (lib.rs lines 245-251). -/
inductive SourceLanguage where
  | Rust
  | Java
  | Cpp
deriving DecidableEq

/-- Embedding of `IDENTS_RS` (lib.rs line 263). -/
def IDENTS_RS : List String := ["debug", "info", "warn"]

/-- Embedding of `IDENTS_JAVA` (lib.rs line 264). -/
def IDENTS_JAVA : List String :=
  ["logger", "log", "fine", "debug", "info", "warn", "trace"]

/-- Embedding of `IDENTS_CPP` (lib.rs line 265). -/
def IDENTS_CPP : List String := ["debug", "info", "warn", "trace"]

/-- Embedding of `SourceLanguage::get_identifiers` (lib.rs lines 338-344). -/
def SourceLanguage.get_identifiers : SourceLanguage → List String
  | .Rust => IDENTS_RS
  | .Java => IDENTS_JAVA
  | .Cpp => IDENTS_CPP

/-- Embedding of a `QueryResult` from `source_query.rs` as consumed by
`extract_logging`: the capture kind, the buffer slice
`source[range.start_byte..range.end_byte]`, and `range.end_point.row`. -/
structure QueryResult where
  kind : String
  text : String
  endRow : Nat
deriving DecidableEq

/-- Embedding of a `CodeSource` as consumed by `extract_logging`: the file id
and language from `code.info`, and the ordered query results that
`SourceQuery::new(code).query(..)` yields for it (the query engine lives in
`source_query.rs`). -/
structure CodeSource where
  id : Nat
  language : SourceLanguage
  results : List QueryResult
deriving DecidableEq

/-- ASCII lower-casing of one character, modelling what Rust's
`str::to_lowercase` does on the identifier characters at hand. -/
def lowerChar (c : Char) : Char :=
  if 65 ≤ c.toNat ∧ c.toNat ≤ 90 then Char.ofNat (c.toNat + 32) else c

/-- Model of Rust `str::to_lowercase`. -/
def strToLower (s : String) : String :=
  String.mk (s.data.map lowerChar)

/-- Whitespace test used by `strTrim`. -/
def isWS (c : Char) : Bool :=
  c = ' ' || c = '\t' || c = '\n' || c = '\r'

/-- Model of Rust `str::trim`: drop leading and trailing whitespace. -/
def strTrim (s : String) : String :=
  String.mk (((s.data.dropWhile isWS).reverse.dropWhile isWS).reverse)

/-- Replace the last element of a list, after Rust's
`matched.get_mut(matched.len() - 1)` (lib.rs lines 525-526). -/
def updateLast (f : α → α) : List α → List α
  | [] => []
  | [a] => [f a]
  | a :: b :: rest => a :: updateLast f (b :: rest)

/-- One iteration of the query-result loop of `extract_logging`
(lib.rs lines 502-535), threading the `matched` and `patterns` vectors.
`mkRef` stands for `SourceRef::new` (code in `source_ref.rs`). -/
def processResult (denylist : List String)
    (mkRef : QueryResult → Option SourceRef)
    (st : List SourceRef × List String) (result : QueryResult) :
    List SourceRef × List String :=
  if result.kind = "string_literal" then
    match mkRef result with
    | some src_ref => (st.1 ++ [src_ref], st.2 ++ [src_ref.pattern])
    | none => st
  else if result.kind = "args" ∨ result.kind = "this" then
    if st.1.isEmpty then st
    else
      let text := result.text
      if denylist.all (fun s => s ≠ strToLower text) then
        (updateLast (fun sr =>
          { sr with
            end_line_no := result.endRow + 1,
            vars := sr.vars ++ [strTrim text] }) st.1, st.2)
      else st
  else st

/-- Embedding of the per-file body of `extract_logging`
(lib.rs lines 496-546).  `regexSetOk` stands for success of
`RegexSet::new(patterns)`; the overall `none` models the panic of
`.expect("To combine patterns")`, `some none` the file contributing no
record, and `some (some sif)` a produced `StatementsInFile`. -/
def extractLoggingFile (mkRef : QueryResult → Option SourceRef)
    (regexSetOk : List String → Bool) (code : CodeSource) :
    Option (Option StatementsInFile) :=
  match code.results.foldl
      (processResult code.language.get_identifiers mkRef) ([], []) with
  | ([], _) => some none
  | (first :: rest, patterns) =>
    if regexSetOk patterns then
      some (some
        { path := first.source_path,
          id := code.id,
          log_statements := first :: rest,
          matcher := patterns })
    else none

/-- Embedding of `extract_logging` (lib.rs lines 492-549): the flat-map over
the sources, aborting (`none`) as soon as one file panics. -/
def extract_logging (mkRef : QueryResult → Option SourceRef)
    (regexSetOk : List String → Bool) :
    List CodeSource → Option (List StatementsInFile)
  | [] => some []
  | c :: rest =>
    match extractLoggingFile mkRef regexSetOk c,
        extract_logging mkRef regexSetOk rest with
    | some o, some l => some (o.toList ++ l)
    | _, _ => none

/-- Embedding of `ScanEvent` from `source_hier.rs` as consumed by
`extract_log_statements`: the `info` of a new file is reduced to the file id
it carries. -/
inductive ScanEvent where
  | NewFile (path : List String) (info : Nat)
  | DeletedFile (path : List String) (id : Nat)
deriving DecidableEq

/-- Accumulator loop for `chunks10`: groups of `n` consecutive elements, a
final shorter group allowed. -/
def chunksAux (n : Nat) : List α → List α → List (List α)
  | acc, [] => if acc.isEmpty then [] else [acc]
  | acc, x :: rest =>
    if n ≤ (acc ++ [x]).length then (acc ++ [x]) :: chunksAux n [] rest
    else chunksAux n (acc ++ [x]) rest

/-- The chunking of the scan-event stream (`chunks(10)`,
lib.rs line 164). -/
def chunks10 (l : List α) : List (List α) :=
  chunksAux 10 [] l

/-- The flat-map over one chunk of scan events (lib.rs lines 165-181):
new files are loaded (a load failure hits `todo!()`, modelled `none`),
deleted files are removed from the map on the spot.  `load p info` stands for
`File::open` followed by `CodeSource::new`. -/
def scanChunk (load : List String → Nat → Option CodeSource) :
    List ScanEvent → List CodeSource × List (Nat × StatementsInFile) →
    Option (List CodeSource × List (Nat × StatementsInFile))
  | [], acc => some acc
  | ev :: rest, acc =>
    match ev with
    | .NewFile p info =>
      match load p info with
      | some cs => scanChunk load rest (acc.1 ++ [cs], acc.2)
      | none => none
    | .DeletedFile _ id =>
      scanChunk load rest
        (acc.1, acc.2.filter (fun kv => kv.1 ≠ id))

/-- `HashMap::insert` on the association-list model: replace the entry with
the same key, or append a fresh one. -/
def insertAssoc (l : List (Nat × StatementsInFile)) (k : Nat)
    (v : StatementsInFile) : List (Nat × StatementsInFile) :=
  if l.any (fun kv => kv.1 = k) then
    l.map (fun kv => if kv.1 = k then (k, v) else kv)
  else l ++ [(k, v)]

/-- Processing of one event chunk in `extract_log_statements`
(lib.rs lines 164-187): run the flat-map, then `extract_logging` on the
collected sources, then insert each produced record keyed by file id. -/
def processChunk (load : List String → Nat → Option CodeSource)
    (mkRef : QueryResult → Option SourceRef)
    (regexSetOk : List String → Bool)
    (files : List (Nat × StatementsInFile)) (chunk : List ScanEvent) :
    Option (List (Nat × StatementsInFile)) :=
  match scanChunk load chunk ([], files) with
  | none => none
  | some (sources, files1) =>
    match extract_logging mkRef regexSetOk sources with
    | none => none
    | some stmts =>
      some (stmts.foldl (fun fs sif => insertAssoc fs sif.id sif) files1)

/-- Embedding of the per-root body of `LogMatcher::extract_log_statements`
(lib.rs lines 163-188): fold the chunked event stream over the root's
`files_with_statements` map; `none` models a panic aborting the run. -/
def extract_log_statements_root (load : List String → Nat → Option CodeSource)
    (mkRef : QueryResult → Option SourceRef)
    (regexSetOk : List String → Bool) (events : List ScanEvent)
    (files : List (Nat × StatementsInFile)) :
    Option (List (Nat × StatementsInFile)) :=
  (chunks10 events).foldlM (processChunk load mkRef regexSetOk) files

/-! ### Example inputs used by witnesses and counterexamples -/

/-- A sample `SourceRef` as `SourceRef::new` would build it for a Rust
`debug!` literal with one placeholder (vars still empty). -/
def srLit : SourceRef :=
  { source_path := "f.rs", line_no := 1, end_line_no := 1, column := 0,
    name := "main", text := "\"x={}\"", vars := [], args := [.Placeholder],
    pattern := "^x=(.*?)$" }

/-- Stand-in for `SourceRef::new` that always yields `srLit`. -/
def mkRefEx : QueryResult → Option SourceRef := fun _ => some srLit

/-- A Rust code source whose query results carry an argument text with a
leading space whose trimmed form is a denylisted identifier. -/
def codeEx : CodeSource :=
  { id := 0, language := .Rust,
    results := [{ kind := "string_literal", text := "", endRow := 0 },
                { kind := "args", text := " debug", endRow := 3 }] }

/-- A Rust code source with an ordinary argument text `"i"`. -/
def codeGood : CodeSource :=
  { id := 0, language := .Rust,
    results := [{ kind := "string_literal", text := "", endRow := 0 },
                { kind := "args", text := "i", endRow := 3 }] }

/-- The record `extract_logging` produces for `codeGood`. -/
def sifGood : StatementsInFile :=
  { path := "f.rs", id := 0,
    log_statements := [{ srLit with end_line_no := 4, vars := ["i"] }],
    matcher := ["^x=(.*?)$"] }

/-- A small `SourceRef` with no argument expressions and one placeholder. -/
def sr10 : SourceRef :=
  { source_path := "f.rs", line_no := 1, end_line_no := 1, column := 0,
    name := "main", text := "t", vars := [], args := [.Placeholder],
    pattern := "p" }

/-- A capture function reporting one participating capture group. -/
def cap10 : SourceRef → String → Option (List (Option String)) :=
  fun _ _ => some [some "whole", some "x"]

/-- A capture function whose pattern never matches. -/
def capNone : SourceRef → String → Option (List (Option String)) :=
  fun _ _ => none

/-- A `SourceRef` with one argument expression and a positional
descriptor. -/
def srC2 : SourceRef := { sr10 with vars := ["i"], args := [.Positional 0] }

/-- A capture function used with `srC2`: whole match and one group. -/
def capC2 : SourceRef → String → Option (List (Option String)) :=
  fun _ _ => some [some "x=1", some "1"]

/-- Two statements for the `match_log_statement` example file. -/
def srA : SourceRef := { sr10 with name := "a", pattern := "pa" }

/-- Second statement of the example file; its pattern is the one the example
log line matches. -/
def srB : SourceRef := { sr10 with name := "b", pattern := "pb" }

/-- Example per-file record with two alternatives. -/
def sifEx : StatementsInFile :=
  { path := "src/foo.rs", id := 0, log_statements := [srA, srB],
    matcher := ["pa", "pb"] }

/-- Example matcher with a single root holding `sifEx`. -/
def mEx : LogMatcher :=
  { roots := [(["r"], { files_with_statements := [(0, sifEx)] })] }

/-- Toy regex engine for examples: a pattern matches exactly itself. -/
def rmEx : String → String → Bool := fun p b => p == b

/-- Example log line carrying a file hint and a body. -/
def lrEx : LogRef :=
  { line := "raw",
    details := some { file := some "foo.rs", lineno := none, body := some "pb" } }

/-! ### Helper lemmas -/

/-- The line chosen inside `extract_variables` coincides with
`LogRef::body`. -/
theorem extractLine_eq_body (lr : LogRef) : extractLine lr = lr.body := by
  rcases lr with ⟨line, details⟩
  cases details with
  | none => rfl
  | some d =>
    rcases d with ⟨f, ln, b⟩
    cases b <;> rfl

/-- A `filterMap` of an if-some-else-none function is a filter followed by a
map. -/
theorem filterMap_if_eq {α β : Type} (P : α → Bool) (f : α → β) :
    ∀ l : List α,
      l.filterMap (fun a => if P a then some (f a) else none) =
        (l.filter P).map f := by
  intro l
  induction l with
  | nil => rfl
  | cons a t ih =>
    by_cases h : P a <;>
      simp [List.filterMap_cons, List.filter_cons, h, ih]

/-- Elements of `updateLast f l` come from `l`, the last one through `f`. -/
theorem mem_updateLast {α : Type} (f : α → α) :
    ∀ (l : List α) (a : α), a ∈ updateLast f l → a ∈ l ∨ ∃ b ∈ l, a = f b := by
  intro l
  induction l with
  | nil => intro a h; simp [updateLast] at h
  | cons x t ih =>
    intro a h
    cases t with
    | nil =>
      simp [updateLast] at h
      exact Or.inr ⟨x, by simp, h⟩
    | cons y t2 =>
      simp only [updateLast, List.mem_cons] at h
      rcases h with h | h
      · exact Or.inl (by simp [h])
      · rcases ih a h with h1 | ⟨b, hb, hab⟩
        · exact Or.inl (by simp [h1])
        · exact Or.inr ⟨b, by simp [hb], hab⟩

/-- Indexing into the result of the capture/descriptor loop: when the loop
succeeds, the `k`-th output pair is `pairOf` applied to the `k`-th zipped
capture/descriptor with the running index shifted by `k`. -/
theorem collectPairs_get? (sr : SourceRef) :
    ∀ (zs : List (Option String × FormatArgument)) (i k : Nat)
      (l : List VariablePair),
      collectPairs sr i zs = some l →
      ∀ c a, zs.get? k = some (c, a) →
      ∃ p, pairOf sr (i + k) c a = some p ∧ l.get? k = some p := by
  intro zs
  induction zs with
  | nil =>
    intro i k l _ c a hk
    simp at hk
  | cons hd tl ih =>
    intro i k l h c a hk
    rcases hd with ⟨c0, a0⟩
    simp only [collectPairs] at h
    cases hp : pairOf sr i c0 a0 with
    | none => rw [hp] at h; exact absurd h (by simp)
    | some p0 =>
      rw [hp] at h
      cases hrest : collectPairs sr (i + 1) tl with
      | none => rw [hrest] at h; exact absurd h (by simp)
      | some l0 =>
        rw [hrest] at h
        simp at h
        subst h
        cases k with
        | zero =>
          simp at hk
          rcases hk with ⟨hc, ha⟩
          subst hc; subst ha
          exact ⟨p0, by simpa using hp, by simp⟩
        | succ k2 =>
          simp only [List.get?_cons_succ] at hk ⊢
          obtain ⟨p, hp1, hp2⟩ := ih (i + 1) k2 l0 hrest c a hk
          refine ⟨p, ?_, hp2⟩
          have harith : i + 1 + k2 = i + (k2 + 1) := by omega
          rw [← harith]
          exact hp1

/-- C6: `extract_variables` applies the source reference's pattern to the log
line's body — `details.body` when present, the raw line otherwise (the three
`LogRef.body` conjuncts) — and returns the empty variable list whenever the
pattern does not match that chosen text. -/
theorem extract_variables_no_match_C6 :
    (∀ cap lr sr, cap sr lr.body = none →
      extract_variables cap lr sr = some []) ∧
    (∀ line f n b,
      LogRef.body
        { line := line,
          details := some { file := f, lineno := n, body := some b } } = b) ∧
    (∀ line f n,
      LogRef.body
        { line := line,
          details := some { file := f, lineno := n, body := none } } = line) ∧
    (∀ line, LogRef.body { line := line, details := none } = line) := by
  refine ⟨?_, ?_, ?_, ?_⟩
  · intro cap lr sr h
    unfold extract_variables
    rw [extractLine_eq_body, h]
  · intro line f n b; rfl
  · intro line f n; rfl
  · intro line; rfl

/-- Witness for C6 at a concrete non-matching capture function. -/
theorem extract_variables_no_match_C6_witness :
    extract_variables capNone lrEx sr10 = some [] :=
  extract_variables_no_match_C6.1 capNone lrEx sr10 rfl

/-- C2: when the pattern matches, a captured group zipped with a
`Positional pos` descriptor produces the pair whose expression is the `pos`-th
entry of `vars` when in range and the sentinel `<unknown>` otherwise (the
second conjunct spells out the two cases of `getD`), and whose value is the
captured substring. -/
theorem extract_variables_positional_C2
    (cap : SourceRef → String → Option (List (Option String)))
    (lr : LogRef) (sr : SourceRef) (caps : List (Option String))
    (k pos : Nat) (s : String) (l : List VariablePair)
    (hcap : cap sr (extractLine lr) = some caps)
    (hk : ((caps.drop 1).zip sr.args).get? k = some (some s, .Positional pos))
    (hres : extract_variables cap lr sr = some l) :
    l.get? k =
      some { expr := (sr.vars.get? pos).getD "<unknown>", value := s } ∧
    ((sr.vars.get? pos).getD "<unknown>" =
      if h : pos < sr.vars.length then sr.vars.get ⟨pos, h⟩
      else "<unknown>") := by
  constructor
  · unfold extract_variables at hres
    rw [hcap] at hres
    obtain ⟨p, hp1, hp2⟩ :=
      collectPairs_get? sr _ 0 k l hres (some s) (.Positional pos) hk
    have hpv : p = { expr := (sr.vars.get? pos).getD "<unknown>", value := s } := by
      have heq : pairOf sr (0 + k) (some s) (.Positional pos) =
          some { expr := (sr.vars.get? pos).getD "<unknown>", value := s } := rfl
      rw [heq] at hp1
      exact (Option.some.inj hp1).symm
    rwa [hpv] at hp2
  · by_cases h : pos < sr.vars.length
    · rw [dif_pos h, List.get?_eq_get h]
      rfl
    · rw [dif_neg h, List.get?_eq_none.2 (by omega)]
      rfl

/-- Witness for C2 at a concrete matching capture. -/
theorem extract_variables_positional_C2_witness :
    ([{ expr := "i", value := "1" }] : List VariablePair).get? 0 =
      some { expr := (srC2.vars.get? 0).getD "<unknown>", value := "1" } ∧
    ((srC2.vars.get? 0).getD "<unknown>" =
      if h : 0 < srC2.vars.length then srC2.vars.get ⟨0, h⟩
      else "<unknown>") :=
  extract_variables_positional_C2 capC2 (LogRef.new "x=1") srC2
    [some "x=1", some "1"] 0 0 "1" [{ expr := "i", value := "1" }]
    rfl rfl rfl

/-- C10: with a `Placeholder` descriptor at zip index 0 against an empty
`vars` list, `extract_variables` hits the unguarded `src_ref.vars[index]` and
panics (modelled `none`), while the same input with a `Positional` descriptor
out of range falls back to the `<unknown>` sentinel. -/
theorem extract_variables_placeholder_panic_C10 :
    extract_variables cap10 (LogRef.new "l") sr10 = none ∧
    extract_variables cap10 (LogRef.new "l")
        { sr10 with args := [.Positional 5] } =
      some [{ expr := "<unknown>", value := "x" }] :=
  ⟨rfl, rfl⟩

/-- C9: with no log format, `filter_log` keeps exactly the lines whose 0-based
index satisfies the range test, in source order, each wrapped as a `LogRef`
with absent details and `line` the source line; the two concrete conjuncts
are the full-range and `[1,2)` scenarios on
`"hello\nwarning\nerror\nboom"`. -/
theorem filter_log_range_C9 :
    (∀ (buffer : String) (contains : Nat → Bool),
      filter_log contains buffer none =
        ((rustLines buffer).enum.filter (fun p => contains p.1)).map
          (fun p => LogRef.new p.2)) ∧
    (∀ l, (LogRef.new l).details = none ∧ (LogRef.new l).line = l) ∧
    filter_log (fun _ => true) "hello\nwarning\nerror\nboom" none =
      [LogRef.new "hello", LogRef.new "warning", LogRef.new "error",
        LogRef.new "boom"] ∧
    filter_log (fun i => decide (1 ≤ i) && decide (i < 2))
        "hello\nwarning\nerror\nboom" none =
      [LogRef.new "warning"] := by
  refine ⟨?_, ?_, by decide, by decide⟩
  · intro buffer contains
    unfold filter_log
    exact filterMap_if_eq (fun (p : Nat × String) => contains p.1)
      (fun (p : Nat × String) => LogRef.new p.2) _
  · intro l
    exact ⟨rfl, rfl⟩

/-- C4 (behaviour the code actually has, documenting the bug): when the new
path is a descendant of a registered root, `add_root` returns `Ok(())` and
leaves the roots untouched — the declared `PathExists` error is never
constructed; when no root covers the path, an empty `SourceTree` is installed
and `Ok(())` returned. -/
theorem add_root_covered_C4 (m : LogMatcher) (p : List String) :
    ((∃ r ∈ m.roots, r.1.isPrefixOf p) →
      m.add_root p = (m, Except.ok ())) ∧
    ((∀ r ∈ m.roots, ¬ r.1.isPrefixOf p) →
      m.add_root p =
        ({ roots := m.roots ++ [(p, { files_with_statements := [] })] },
          Except.ok ())) := by
  constructor
  · rintro ⟨r, hr, hpre⟩
    unfold LogMatcher.add_root LogMatcher.match_path
    cases hf : m.roots.find? (fun r => r.1.isPrefixOf p) with
    | some _ => rfl
    | none =>
      rw [List.find?_eq_none] at hf
      exact absurd hpre (by simpa using hf r hr)
  · intro h
    unfold LogMatcher.add_root LogMatcher.match_path
    rw [List.find?_eq_none.2 (by intro x hx; simpa using h x hx)]

/-- Witness for C4: `add_root` on a fresh matcher installs the root, and
`add_root` of a descendant afterwards is a no-op returning `Ok(())`. -/
theorem add_root_covered_C4_witness :
    (LogMatcher.mk [(["a"], { files_with_statements := [] })]).add_root
        ["a", "b"] =
      (LogMatcher.mk [(["a"], { files_with_statements := [] })],
        Except.ok ()) ∧
    (LogMatcher.mk []).add_root ["a"] =
      (LogMatcher.mk [(["a"], { files_with_statements := [] })],
        Except.ok ()) :=
  ⟨(add_root_covered_C4 _ _).1
      ⟨(["a"], { files_with_statements := [] }), by simp, by decide⟩,
    (add_root_covered_C4 _ _).2 (by simp)⟩

/-- C7 counterexample: registering `a/b` and then its ancestor `a` leaves the
matcher with two roots of which one is a componentwise prefix of the other,
so the pairwise non-nested invariant fails on the code. -/
theorem add_root_nested_C7_cex :
    ((((LogMatcher.mk []).add_root ["a", "b"]).1.add_root ["a"]).1.roots.map
        Prod.fst = [["a", "b"], ["a"]]) ∧
    List.isPrefixOf ["a"] ["a", "b"] = true := by
  exact ⟨by decide, by decide⟩

/-- C7 amended: `add_root` either leaves the matcher unchanged (when some
registered root is a prefix of the new path) or appends the new path with an
empty tree, in which case no registered root was a prefix of it — so no root
added by `add_root` is ever a descendant of a root present at the time of its
addition; ancestors of existing roots are still accepted and produce nested
roots. -/
theorem add_root_no_descendant_C7_amended (m : LogMatcher) (p : List String) :
    (m.add_root p).1 = m ∨
    ((m.add_root p).1.roots =
        m.roots ++ [(p, { files_with_statements := [] })] ∧
      ∀ r ∈ m.roots, r.1.isPrefixOf p = false) := by
  unfold LogMatcher.add_root LogMatcher.match_path
  cases hf : m.roots.find? (fun r => r.1.isPrefixOf p) with
  | some _ => exact Or.inl rfl
  | none =>
    refine Or.inr ⟨rfl, ?_⟩
    rw [List.find?_eq_none] at hf
    intro r hr
    have := hf r hr
    simp only [Bool.not_eq_true] at this
    exact this

/-- A regex back-end on which every pattern set compiles. -/
def regexOkAll : List String → Bool := fun _ => true

/-- A regex back-end on which no pattern set compiles (the `CompiledTooBig`
situation). -/
def regexFail : List String → Bool := fun _ => false

/-- A loader for which every source file fails to open or parse. -/
def loadNone : List String → Nat → Option CodeSource := fun _ _ => none

/-- C5 (behaviour the code actually has, documenting the bug): when a file
yields at least one statement and the combined pattern set fails to compile,
the per-file construction panics through `.expect("To combine patterns")`
(result `none`) instead of falling back to per-pattern matching, and the
panic aborts the whole `extract_logging` run. -/
theorem extract_logging_regexfail_C5
    (mkRef : QueryResult → Option SourceRef)
    (regexSetOk : List String → Bool) (code : CodeSource)
    (first : SourceRef) (rest : List SourceRef) (patterns : List String)
    (hfold : code.results.foldl
        (processResult code.language.get_identifiers mkRef) ([], []) =
      (first :: rest, patterns))
    (hfail : regexSetOk patterns = false) :
    extractLoggingFile mkRef regexSetOk code = none ∧
    ∀ others, extract_logging mkRef regexSetOk (code :: others) = none := by
  have h1 : extractLoggingFile mkRef regexSetOk code = none := by
    unfold extractLoggingFile
    rw [hfold]
    simp [hfail]
  refine ⟨h1, ?_⟩
  intro others
  cases h2 : extract_logging mkRef regexSetOk others <;>
    simp [extract_logging, h1, h2]

/-- Witness for C5 at a concrete file with one extracted statement and a
failing pattern-set compilation. -/
theorem extract_logging_regexfail_C5_witness :
    extractLoggingFile mkRefEx regexFail codeEx = none ∧
    extract_logging mkRefEx regexFail [codeEx] = none :=
  ⟨(extract_logging_regexfail_C5 mkRefEx regexFail codeEx
        { srLit with end_line_no := 4, vars := ["debug"] } [] ["^x=(.*?)$"]
        rfl rfl).1,
    (extract_logging_regexfail_C5 mkRefEx regexFail codeEx
        { srLit with end_line_no := 4, vars := ["debug"] } [] ["^x=(.*?)$"]
        rfl rfl).2 []⟩

/-- Every element of `acc ++ l` lands in some chunk of `chunksAux n acc l`. -/
theorem mem_chunksAux {α : Type} (n : Nat) :
    ∀ (l acc : List α) (x : α), x ∈ acc ∨ x ∈ l →
      ∃ c ∈ chunksAux n acc l, x ∈ c := by
  intro l
  induction l with
  | nil =>
    intro acc x hx
    rcases hx with hx | hx
    · refine ⟨acc, ?_, hx⟩
      have hne : acc.isEmpty = false := by
        cases acc
        · simp at hx
        · rfl
      unfold chunksAux
      simp [hne]
    · simp at hx
  | cons y rest ih =>
    intro acc x hx
    unfold chunksAux
    by_cases hlen : n ≤ (acc ++ [y]).length
    · rw [if_pos hlen]
      rcases hx with hx | hx
      · exact ⟨acc ++ [y], by simp, by simp [hx]⟩
      · rcases List.mem_cons.1 hx with hx | hx
        · exact ⟨acc ++ [y], by simp, by simp [hx]⟩
        · obtain ⟨c, hc, hxc⟩ := ih [] x (Or.inr hx)
          exact ⟨c, by simp [hc], hxc⟩
    · rw [if_neg hlen]
      rcases hx with hx | hx
      · exact ih (acc ++ [y]) x (Or.inl (by simp [hx]))
      · rcases List.mem_cons.1 hx with hx | hx
        · exact ih (acc ++ [y]) x (Or.inl (by simp [hx]))
        · exact ih (acc ++ [y]) x (Or.inr hx)

/-- A chunk containing a new file that fails to load makes the chunk
flat-map hit `todo!()` (result `none`). -/
theorem scanChunk_fail (load : List String → Nat → Option CodeSource) :
    ∀ (chunk : List ScanEvent)
      (acc : List CodeSource × List (Nat × StatementsInFile))
      (p : List String) (info : Nat),
      ScanEvent.NewFile p info ∈ chunk → load p info = none →
      scanChunk load chunk acc = none := by
  intro chunk
  induction chunk with
  | nil => intro acc p info h _; simp at h
  | cons ev rest ih =>
    intro acc p info hmem hfail
    rcases List.mem_cons.1 hmem with heq | hmem2
    · subst heq
      simp only [scanChunk]
      rw [hfail]
    · cases ev with
      | NewFile q j =>
        simp only [scanChunk]
        cases hl : load q j with
        | none => rfl
        | some cs => exact ih _ p info hmem2 hfail
      | DeletedFile q j =>
        simp only [scanChunk]
        exact ih _ p info hmem2 hfail

/-- Lifting `scanChunk_fail` through `processChunk`. -/
theorem processChunk_fail (load : List String → Nat → Option CodeSource)
    (mkRef : QueryResult → Option SourceRef)
    (regexSetOk : List String → Bool)
    (files : List (Nat × StatementsInFile)) (chunk : List ScanEvent)
    (p : List String) (info : Nat)
    (hmem : ScanEvent.NewFile p info ∈ chunk)
    (hfail : load p info = none) :
    processChunk load mkRef regexSetOk files chunk = none := by
  unfold processChunk
  rw [scanChunk_fail load chunk ([], files) p info hmem hfail]

/-- A failing chunk anywhere in the list makes the chunk fold abort. -/
theorem foldlM_processChunk_fail
    (load : List String → Nat → Option CodeSource)
    (mkRef : QueryResult → Option SourceRef)
    (regexSetOk : List String → Bool) :
    ∀ (cs : List (List ScanEvent)) (files : List (Nat × StatementsInFile))
      (p : List String) (info : Nat),
      (∃ c ∈ cs, ScanEvent.NewFile p info ∈ c) → load p info = none →
      cs.foldlM (processChunk load mkRef regexSetOk) files = none := by
  intro cs
  induction cs with
  | nil => intro files p info h _; simp at h
  | cons c rest ih =>
    intro files p info hex hfail
    rcases hex with ⟨c0, hc0, hmem⟩
    rcases List.mem_cons.1 hc0 with heq | hc0r
    · subst heq
      simp only [List.foldlM_cons]
      rw [processChunk_fail load mkRef regexSetOk files c0 p info hmem hfail]
      rfl
    · simp only [List.foldlM_cons]
      cases hp : processChunk load mkRef regexSetOk files c with
      | none => rfl
      | some files2 =>
        simp only [Option.bind_eq_bind, Option.some_bind]
        exact ih files2 p info ⟨c0, hc0r, hmem⟩ hfail

/-- C8 (behaviour the code actually has, documenting the bug): a scan event
for a new file that cannot be opened or parsed hits the `todo!()` arms of
`extract_log_statements` and panics (result `none`), aborting the whole run
instead of skipping the file with a warning. -/
theorem extract_log_statements_load_failure_C8
    (load : List String → Nat → Option CodeSource)
    (mkRef : QueryResult → Option SourceRef)
    (regexSetOk : List String → Bool) (events : List ScanEvent)
    (files : List (Nat × StatementsInFile)) (p : List String) (info : Nat)
    (hmem : ScanEvent.NewFile p info ∈ events)
    (hfail : load p info = none) :
    extract_log_statements_root load mkRef regexSetOk events files = none := by
  unfold extract_log_statements_root
  obtain ⟨c, hc, hmemc⟩ :=
    mem_chunksAux 10 events [] (ScanEvent.NewFile p info) (Or.inr hmem)
  exact foldlM_processChunk_fail load mkRef regexSetOk (chunks10 events)
    files p info ⟨c, hc, hmemc⟩ hfail

/-- Witness for C8 at a concrete failing loader. -/
theorem extract_log_statements_load_failure_C8_witness :
    extract_log_statements_root loadNone mkRefEx regexOkAll
      [ScanEvent.NewFile ["f.rs"] 0] [] = none :=
  extract_log_statements_load_failure_C8 loadNone mkRefEx regexOkAll
    [ScanEvent.NewFile ["f.rs"] 0] [] ["f.rs"] 0 (by simp) rfl

/-- One step of the `extract_logging` loop preserves the denylist invariant
on `vars`, provided the freshly built references start with empty `vars` and
this result's argument text equals its own trim. -/
theorem processResult_preserves (denylist : List String)
    (mkRef : QueryResult → Option SourceRef)
    (hmk : ∀ r sr, mkRef r = some sr → sr.vars = [])
    (st : List SourceRef × List String) (r : QueryResult)
    (htrim : (r.kind = "args" ∨ r.kind = "this") → strTrim r.text = r.text)
    (hst : ∀ sr ∈ st.1, ∀ v ∈ sr.vars, strToLower v ∉ denylist) :
    ∀ sr ∈ (processResult denylist mkRef st r).1, ∀ v ∈ sr.vars,
      strToLower v ∉ denylist := by
  intro sr hsr v hv
  unfold processResult at hsr
  by_cases hk1 : r.kind = "string_literal"
  · rw [if_pos hk1] at hsr
    cases hmkr : mkRef r with
    | none => rw [hmkr] at hsr; exact hst sr hsr v hv
    | some sr0 =>
      rw [hmkr] at hsr
      simp only [List.mem_append, List.mem_singleton] at hsr
      rcases hsr with hsr | hsr
      · exact hst sr hsr v hv
      · rw [hsr, hmk r sr0 hmkr] at hv
        simp at hv
  · rw [if_neg hk1] at hsr
    by_cases hk2 : r.kind = "args" ∨ r.kind = "this"
    · rw [if_pos hk2] at hsr
      by_cases hemp : st.1.isEmpty
      · rw [if_pos (by simpa using hemp)] at hsr
        exact hst sr hsr v hv
      · rw [if_neg (by simpa using hemp)] at hsr
        by_cases hdeny :
            denylist.all (fun s => decide (s ≠ strToLower r.text)) = true
        · rw [if_pos (by simpa using hdeny)] at hsr
          rcases mem_updateLast _ st.1 sr hsr with hmem | ⟨b, hb, hab⟩
          · exact hst sr hmem v hv
          · subst hab
            simp only [List.mem_append, List.mem_singleton] at hv
            rcases hv with hv | hv
            · exact hst b hb v hv
            · subst hv
              rw [htrim hk2]
              intro hcontra
              have := List.all_eq_true.1 hdeny _ hcontra
              simp at this
        · rw [if_neg (by simpa using hdeny)] at hsr
          exact hst sr hsr v hv
    · rw [if_neg hk2] at hsr
      exact hst sr hsr v hv

/-- The denylist invariant holds after folding all query results. -/
theorem foldl_processResult_vars (denylist : List String)
    (mkRef : QueryResult → Option SourceRef)
    (hmk : ∀ r sr, mkRef r = some sr → sr.vars = []) :
    ∀ (results : List QueryResult) (st : List SourceRef × List String),
      (∀ r ∈ results,
        (r.kind = "args" ∨ r.kind = "this") → strTrim r.text = r.text) →
      (∀ sr ∈ st.1, ∀ v ∈ sr.vars, strToLower v ∉ denylist) →
      ∀ sr ∈ (results.foldl (processResult denylist mkRef) st).1,
        ∀ v ∈ sr.vars, strToLower v ∉ denylist := by
  intro results
  induction results with
  | nil => intro st _ hst; simpa using hst
  | cons r rest ih =>
    intro st htrim hst
    simp only [List.foldl_cons]
    exact ih (processResult denylist mkRef st r)
      (fun r2 h2 => htrim r2 (by simp [h2]))
      (processResult_preserves denylist mkRef hmk st r (htrim r (by simp)) hst)

/-- Per-file denylist invariant: under the same side conditions, every
`vars` entry of a produced `StatementsInFile` avoids the language's
denylist once lower-cased. -/
theorem extractLoggingFile_denylist (mkRef : QueryResult → Option SourceRef)
    (regexSetOk : List String → Bool) (code : CodeSource)
    (hmk : ∀ r sr, mkRef r = some sr → sr.vars = [])
    (htrim : ∀ r ∈ code.results,
      (r.kind = "args" ∨ r.kind = "this") → strTrim r.text = r.text)
    (sif : StatementsInFile)
    (hout : extractLoggingFile mkRef regexSetOk code = some (some sif)) :
    ∀ sr ∈ sif.log_statements, ∀ v ∈ sr.vars,
      strToLower v ∉ code.language.get_identifiers := by
  unfold extractLoggingFile at hout
  have hinv := foldl_processResult_vars code.language.get_identifiers mkRef hmk
    code.results ([], []) htrim (by simp)
  cases hfold : code.results.foldl
      (processResult code.language.get_identifiers mkRef) ([], []) with
  | mk matched patterns =>
  rw [hfold] at hout hinv
  cases matched with
  | nil => simp at hout
  | cons first rest =>
    dsimp only at hout
    by_cases hok : regexSetOk patterns = true
    · rw [if_pos hok] at hout
      have hsif : sif.log_statements = first :: rest := by
        have := Option.some.inj (Option.some.inj hout)
        rw [← this]
      rw [hsif]
      exact hinv
    · rw [if_neg hok] at hout
      simp at hout

/-- C3 counterexample: on a query result whose argument text ` debug` carries
a leading space, the code compares the lowercased untrimmed text against the
denylist (which passes) and then stores the trimmed text, so the produced
`vars` entry `debug`, lower-cased, is exactly a Rust denylist identifier. -/
theorem extract_logging_denylist_C3_cex :
    extract_logging mkRefEx regexOkAll [codeEx] =
      some [{ path := "f.rs", id := 0,
              log_statements :=
                [{ srLit with end_line_no := 4, vars := ["debug"] }],
              matcher := ["^x=(.*?)$"] }] ∧
    strToLower "debug" ∈ IDENTS_RS ∧
    SourceLanguage.Rust.get_identifiers = IDENTS_RS ∧
    codeEx.results.map QueryResult.text = ["", " debug"] := by
  exact ⟨by decide, by decide, rfl, by decide⟩

/-- C3 amended: `extract_logging` checks the lowercased, untrimmed argument
text against the language denylist and then appends the trimmed text, so the
claimed invariant — no `vars` entry, lower-cased, equals a denylisted
identifier — holds for every file whose argument texts carry no surrounding
whitespace (and whose fresh references start with empty `vars`, as
`SourceRef::new` builds them). -/
theorem extract_logging_denylist_C3_amended
    (mkRef : QueryResult → Option SourceRef)
    (regexSetOk : List String → Bool)
    (hmk : ∀ r sr, mkRef r = some sr → sr.vars = []) :
    ∀ (sources : List CodeSource) (out : List StatementsInFile),
      (∀ code ∈ sources, ∀ r ∈ code.results,
        (r.kind = "args" ∨ r.kind = "this") → strTrim r.text = r.text) →
      extract_logging mkRef regexSetOk sources = some out →
      ∀ sif ∈ out, ∃ code ∈ sources,
        extractLoggingFile mkRef regexSetOk code = some (some sif) ∧
        ∀ sr ∈ sif.log_statements, ∀ v ∈ sr.vars,
          strToLower v ∉ code.language.get_identifiers := by
  intro sources
  induction sources with
  | nil =>
    intro out _ hout sif hsif
    simp only [extract_logging] at hout
    have : out = [] := (Option.some.inj hout).symm
    subst this
    simp at hsif
  | cons c rest ih =>
    intro out htrim hout sif hsif
    simp only [extract_logging] at hout
    cases hc : extractLoggingFile mkRef regexSetOk c with
    | none => rw [hc] at hout; simp at hout
    | some o =>
      rw [hc] at hout
      cases hr : extract_logging mkRef regexSetOk rest with
      | none => rw [hr] at hout; simp at hout
      | some l =>
        rw [hr] at hout
        have hout2 : o.toList ++ l = out := Option.some.inj hout
        rw [← hout2, List.mem_append] at hsif
        rcases hsif with hsif | hsif
        · cases o with
          | none => simp at hsif
          | some s0 =>
            simp only [Option.toList_some, List.mem_singleton] at hsif
            subst hsif
            refine ⟨c, by simp, hc, ?_⟩
            exact extractLoggingFile_denylist mkRef regexSetOk c hmk
              (htrim c (by simp)) sif hc
        · obtain ⟨code, hcode, h1, h2⟩ :=
            ih l (fun cd hcd => htrim cd (by simp [hcd])) hr sif hsif
          exact ⟨code, by simp [hcode], h1, h2⟩

/-- Witness for the amended C3 at a concrete well-behaved file. -/
theorem extract_logging_denylist_C3_amended_witness :
    extract_logging mkRefEx regexOkAll [codeGood] = some [sifGood] ∧
    strToLower "i" ∉ SourceLanguage.Rust.get_identifiers := by
  refine ⟨by decide, ?_⟩
  obtain ⟨code, hcode, _, hinv⟩ :=
    extract_logging_denylist_C3_amended mkRefEx regexOkAll
      (fun r sr hr => by
        have := Option.some.inj hr
        rw [← this]
        rfl)
      [codeGood] [sifGood] (by decide) (by decide) sifGood (by simp)
  have hc : code = codeGood := by simpa using hcode
  subst hc
  exact hinv { srLit with end_line_no := 4, vars := ["i"] } (by decide)
    "i" (by decide)

/-- The per-file probe in match form equals its findIdx-bind description. -/
theorem fileFirstMatch_eq_bind (rm : String → String → Bool)
    (sif : StatementsInFile) (body : String) :
    fileFirstMatch rm sif body =
      (sif.matcher.findIdx? (fun p => rm p body)).bind
        (fun i => sif.log_statements.get? i) := by
  cases h : sif.matcher.findIdx? (fun p => rm p body) with
  | none => simp [fileFirstMatch, h]
  | some i => simp [fileFirstMatch, h]

/-- With a file hint and a body present, one root's candidate list is the
hint-filtered probe of its files. -/
theorem rootMatches_hint (rm : String → String → Bool) (coll : SourceTree)
    (lr : LogRef) (filename : String) (ln : Option Nat) (body : String)
    (hd : lr.details =
      some { file := some filename, lineno := ln, body := some body }) :
    rootMatches rm coll lr =
      ((coll.files_with_statements.map Prod.snd).filter
          (fun s => strContains s.path filename)).filterMap
        (fun s => fileFirstMatch rm s body) := by
  unfold rootMatches
  rw [hd]

/-- The root loop of `match_log_statement`, in the hinted case, computes the
specification-side search. -/
theorem matchInRoots_hint_eq (rm : String → String → Bool)
    (cap : SourceRef → String → Option (List (Option String))) (lr : LogRef)
    (filename : String) (ln : Option Nat) (body : String)
    (hd : lr.details =
      some { file := some filename, lineno := ln, body := some body }) :
    ∀ roots, matchInRoots rm cap lr roots =
      (specHintMatch rm roots filename body).map (mkMapping cap lr) := by
  intro roots
  induction roots with
  | nil => rfl
  | cons r rest ih =>
    rcases r with ⟨rp, coll⟩
    have hfun : (fun s => fileFirstMatch rm s body) =
        (fun (s : StatementsInFile) =>
          (s.matcher.findIdx? (fun p => rm p body)).bind
            (fun i => s.log_statements.get? i)) := by
      funext s
      exact fileFirstMatch_eq_bind rm s body
    simp only [matchInRoots, specHintMatch, List.filterMap_cons]
    rw [rootMatches_hint rm coll lr filename ln body hd, hfun]
    cases hh : (((coll.files_with_statements.map Prod.snd).filter
        (fun s => strContains s.path filename)).filterMap
        (fun (s : StatementsInFile) =>
          (s.matcher.findIdx? (fun p => rm p body)).bind
            (fun i => s.log_statements.get? i))).head? with
    | some sr => simp [hh]
    | none =>
      simp only [hh]
      unfold specHintMatch at ih
      simpa using ih

/-- C1: whenever the details carry both a file hint and a body,
`match_log_statement` computes exactly the specification search: per root,
restrict to files whose stored path contains the hint as a substring, take
the first such file whose matcher has a matching alternative (lowest index
first), resolve the statement at that index, and wrap it in a `LogMapping`;
the result is absent when no root yields any match. -/
theorem match_log_statement_hints_C1 (rm : String → String → Bool)
    (cap : SourceRef → String → Option (List (Option String)))
    (m : LogMatcher) (lr : LogRef) (filename : String) (ln : Option Nat)
    (body : String)
    (hd : lr.details =
      some { file := some filename, lineno := ln, body := some body }) :
    LogMatcher.match_log_statement rm cap m lr =
      (specHintMatch rm m.roots filename body).map (mkMapping cap lr) :=
  matchInRoots_hint_eq rm cap lr filename ln body hd m.roots

/-- Witness for C1 at a concrete matcher, hint and body: the second
alternative of the only file is selected. -/
theorem match_log_statement_hints_C1_witness :
    LogMatcher.match_log_statement rmEx capNone mEx lrEx =
      some { log_ref := lrEx, src_ref := some srB, varList := some [] } :=
  (match_log_statement_hints_C1 rmEx capNone mEx lrEx "foo.rs" none "pb"
      rfl).trans (by decide)
